import Mathlib

/-!
Shallow embedding of the TLE-parsing and trajectory-sampling core of
`src/Orbit_Vis_V1.js` (the cesium-vite orbit visualiser), together with
proofs of the specified properties.

The parser `parseTLEText` is embedded directly.  String primitives that
the JavaScript runtime provides (`split`, `trim`, `startsWith`) are
modelled structurally on the character list of a string, restricted to the
ASCII whitespace the inputs contain.  The external orbital-propagation
chain (satellite.js `propagate` / `gstime` / `eciToGeodetic` /
`degreesLong` / `degreesLat`) and the render collaborator's reverse query
(`SampledPositionProperty.getValue` composed with
`cartesianToCartographic`) are third-party capabilities; they enter the
embedding as oracle parameters returning `Option` values, `none` standing
for their failure signals.  Real-valued quantities are modelled over `ℚ`.
-/

namespace OrbitVis

/-- An orbital element set as pushed by `parseTLEText`:
the record `{ name, tle1, tle2 }` of the source. -/
structure ElementSet where
  name : String
  tle1 : String
  tle2 : String
deriving DecidableEq, Repr

/-- JavaScript `l.trim()` acting on the character list of a line
(whitespace stripped from both ends). -/
def trimChars (cs : List Char) : List Char :=
  ((cs.dropWhile Char.isWhitespace).reverse.dropWhile Char.isWhitespace).reverse

/-- The normalisation `text.split(/\r?\n/).map((l) => l.trim()).filter(Boolean)`
of `parseTLEText` (source lines 80-83): split into lines, trim each line,
drop the blank ones.  Splitting at `'\n'` and trimming afterwards also
removes a `'\r'` left at the end of a line, so the `\r?\n` separator is
covered; `filter(Boolean)` keeps exactly the non-empty strings. -/
def normalizeLines (text : String) : List String :=
  ((text.data.splitOn '\n').map fun cs => String.mk (trimChars cs)).filter
    fun l => !l.isEmpty

/-- JavaScript `s.startsWith(p)`, on character lists. -/
def startsWith (s p : String) : Bool :=
  p.data.isPrefixOf s.data

/-- The scan loop of `parseTLEText` (source lines 85-103).  The list
argument is the remaining lines `lines.slice(i)`; `k` is `out.length`, the
number of element sets emitted so far.  A lookahead `lines[i+1]` or
`lines[i+2]` past the end of the list is an `undefined?.startsWith(...)`
in the source, which short-circuits to a non-match:  here those situations
fall into the patterns with fewer than three remaining lines.  With two
remaining lines, a failing first branch is followed by two non-matching
single-step advances, so nothing further is emitted. -/
def scanTLE : List String → Nat → List ElementSet
  | [], _ => []
  | [_], _ => []
  | [l0, l1], k =>
    if startsWith l0 "1 " && startsWith l1 "2 " then
      [⟨"SAT " ++ toString (k + 1), l0, l1⟩]
    else
      []
  | l0 :: l1 :: l2 :: rest, k =>
    if startsWith l0 "1 " && startsWith l1 "2 " then
      ⟨"SAT " ++ toString (k + 1), l0, l1⟩ :: scanTLE (l2 :: rest) (k + 1)
    else if !startsWith l0 "1 " && startsWith l1 "1 " && startsWith l2 "2 " then
      ⟨l0, l1, l2⟩ :: scanTLE rest (k + 1)
    else
      scanTLE (l1 :: l2 :: rest) k

/-- Number of iterations the scan loop of `parseTLEText` performs on a
given remaining line list: each iteration advances the index by 2, 3 or 1
along the branches of `scanTLE` (the emitted names do not influence the
control flow, so the accumulator count is not needed here). -/
def scanSteps : List String → Nat
  | [] => 0
  | [_] => 1
  | [l0, l1] =>
    if startsWith l0 "1 " && startsWith l1 "2 " then 1 else 2
  | l0 :: l1 :: l2 :: rest =>
    if startsWith l0 "1 " && startsWith l1 "2 " then 1 + scanSteps (l2 :: rest)
    else if !startsWith l0 "1 " && startsWith l1 "1 " && startsWith l2 "2 " then
      1 + scanSteps rest
    else 1 + scanSteps (l1 :: l2 :: rest)

/-- Function `parseTLEText` (source lines 79-105): normalise the text into
lines and run the scan with an empty output accumulator. -/
def parseTLEText (text : String) : List ElementSet :=
  scanTLE (normalizeLines text) 0

/-- A geodetic position as delivered by the external propagation chain
(`propagate`, then `eciToGeodetic`, then `degreesLong` / `degreesLat`):
longitude and latitude in degrees, height in kilometers. -/
structure Geodetic where
  lonDeg : ℚ
  latDeg : ℚ
  heightKm : ℚ
deriving DecidableEq, Repr

/-- One sample appended by `position.addSample(sampleTime, ...)` (source
line 128): the absolute sample time and the position handed to the
renderer, with height converted from kilometers to meters (line 126). -/
structure PositionSample where
  time : ℚ
  lonDeg : ℚ
  latDeg : ℚ
  altMeters : ℚ
deriving DecidableEq, Repr

/-- The values taken by `t` in `for (let t = 0; t <= spanSec; t += step)`:
the multiples `n * step` with `n * step ≤ spanSec`; for `0 < step` those
are exactly the `n * step` with `n ≤ spanSec / step`. -/
def sampleOffsets (spanSec step : ℕ) : List ℕ :=
  (List.range (spanSec / step + 1)).map fun n => n * step

/-- The sampling loop of `addSatelliteFromTLE` (source lines 112-129).
The external propagation chain evaluated at an absolute time is the oracle
`prop`; `none` models `!prop.position` (no solution at this time), on
which the loop `continue`s without appending a sample.  `start` is the
window start, `spanSec` is `secondsDifference(stop, start)`; the source
runs this loop with `step = 10`. -/
def buildTrajectory (prop : ℚ → Option Geodetic) (start : ℚ)
    (spanSec step : ℕ) : List PositionSample :=
  (sampleOffsets spanSec step).filterMap fun t : ℕ =>
    (prop (start + (t : ℚ))).map fun g =>
      ⟨start + (t : ℚ), g.lonDeg, g.latDeg, g.heightKm * 1000⟩

/-- The ground-track loop of `init` (source lines 178-192): a coarser pass
with a 30-second stride over the same window.  `getValue` is the render
collaborator's reverse query `ent.position.getValue(time)` composed with
`cartesianToCartographic`; `none` models an unresolvable time (the
`if (!cart) continue`).  Each resolved cartographic point is re-projected
at altitude zero (`Cartesian3.fromRadians(lon, lat, 0)`). -/
def buildGroundTrack (getValue : ℚ → Option (ℚ × ℚ)) (start : ℚ)
    (spanSec : ℕ) : List (ℚ × ℚ × ℚ) :=
  (sampleOffsets spanSec 30).filterMap fun t : ℕ =>
    (getValue (start + (t : ℚ))).map fun c => (c.1, c.2, 0)

/-- One user-visible action of `init` (source lines 152-212) on the scene. -/
inductive RenderAction where
  | fallbackNotice (text : String)
  | satelliteEntity (name : String) (traj : List PositionSample)
  | groundTrackEntity (name : String)
deriving DecidableEq, Repr

/-- Whether a render action is the fallback notice label. -/
def RenderAction.isNotice : RenderAction → Bool
  | .fallbackNotice _ => true
  | _ => false

/-- The rendering decisions of `init` after a successful load (source
lines 155-205): an empty parse result shows the fallback label and
returns; otherwise every element set gets a satellite entity carrying its
sampled trajectory (step 10) and a ground-track entity.  Emptiness of an
individual trajectory is never tested by the source. -/
def initRender (prop : ElementSet → ℚ → Option Geodetic) (start : ℚ)
    (spanSec : ℕ) (tles : List ElementSet) : List RenderAction :=
  if tles.length = 0 then
    [.fallbackNotice "No valid TLEs found in /TLE.txt"]
  else
    (tles.map fun t =>
      .satelliteEntity t.name (buildTrajectory (prop t) start spanSec 10)) ++
    (tles.map fun t => .groundTrackEntity (t.name ++ " ground track"))

/-! ## Parser lemmas -/

/-- Lines surviving `normalizeLines` are non-empty strings. -/
lemma normalizeLines_ne_empty (text : String) : ∀ l ∈ normalizeLines text, l ≠ "" := by
  intro l hl
  obtain ⟨-, h2⟩ := List.mem_filter.mp hl
  intro hemp
  rw [hemp] at h2
  exact absurd h2 (by decide)

/-- A string carrying the `"1 "` marker is non-empty. -/
lemma ne_empty_of_marker1 {s : String} (h : startsWith s "1 " = true) : s ≠ "" := by
  rintro rfl
  exact absurd h (by decide)

/-- A string carrying the `"2 "` marker is non-empty. -/
lemma ne_empty_of_marker2 {s : String} (h : startsWith s "2 " = true) : s ≠ "" := by
  rintro rfl
  exact absurd h (by decide)

/-- An auto-generated satellite name is non-empty. -/
lemma satName_ne_empty (k : Nat) : ("SAT " ++ toString (k + 1)) ≠ "" := by
  intro h
  have hlen := congrArg String.length h
  rw [String.length_append] at hlen
  have h4 : ("SAT " : String).length = 4 := rfl
  have h0 : ("" : String).length = 0 := rfl
  omega

/-- Every element set emitted by the scan has its two marker lines and a
non-empty name, provided every input line is non-empty. -/
lemma scanTLE_invariant : ∀ (lines : List String) (k : Nat),
    (∀ l ∈ lines, l ≠ "") →
    ∀ e ∈ scanTLE lines k,
      startsWith e.tle1 "1 " = true ∧ startsWith e.tle2 "2 " = true ∧ e.name ≠ ""
  | [], _, _ => by intro e he; simp [scanTLE] at he
  | [_], _, _ => by intro e he; simp [scanTLE] at he
  | [l0, l1], k, _ => by
    intro e he
    cases hc : (startsWith l0 "1 " && startsWith l1 "2 ") with
    | false => simp [scanTLE, hc] at he
    | true =>
      simp only [scanTLE, hc, if_true] at he
      obtain ⟨h1, h2⟩ := Bool.and_eq_true_iff.mp hc
      rw [List.mem_singleton] at he
      subst he
      exact ⟨h1, h2, satName_ne_empty k⟩
  | l0 :: l1 :: l2 :: rest, k, hl => by
    intro e he
    have hl1 : ∀ l ∈ l1 :: l2 :: rest, l ≠ "" :=
      fun l h => hl l (List.mem_cons_of_mem _ h)
    have hl2 : ∀ l ∈ l2 :: rest, l ≠ "" :=
      fun l h => hl1 l (List.mem_cons_of_mem _ h)
    have hl3 : ∀ l ∈ rest, l ≠ "" :=
      fun l h => hl2 l (List.mem_cons_of_mem _ h)
    cases hc1 : (startsWith l0 "1 " && startsWith l1 "2 ") with
    | true =>
      simp only [scanTLE, hc1, if_true] at he
      obtain ⟨h1, h2⟩ := Bool.and_eq_true_iff.mp hc1
      rcases List.mem_cons.mp he with he | he
      · subst he
        exact ⟨h1, h2, satName_ne_empty k⟩
      · exact scanTLE_invariant (l2 :: rest) (k + 1) hl2 e he
    | false =>
      cases hc2 : (!startsWith l0 "1 " && startsWith l1 "1 " && startsWith l2 "2 ") with
      | true =>
        simp only [scanTLE, hc1, hc2, if_true, Bool.false_eq_true, if_false] at he
        obtain ⟨h12, h2⟩ := Bool.and_eq_true_iff.mp hc2
        obtain ⟨-, h1⟩ := Bool.and_eq_true_iff.mp h12
        rcases List.mem_cons.mp he with he | he
        · subst he
          exact ⟨h1, h2, hl l0 (List.mem_cons_self _ _)⟩
        · exact scanTLE_invariant rest (k + 1) hl3 e he
      | false =>
        simp only [scanTLE, hc1, hc2, Bool.false_eq_true, if_false] at he
        exact scanTLE_invariant (l1 :: l2 :: rest) k hl1 e he

/-- Position-indexed description of the emitted names: the element set at
0-based index `i` of a scan started with `k` sets already emitted either
carries the auto-generated name for the running count `k + i + 1`, or its
name is one of the input lines (the 3-line branch). -/
lemma scanTLE_name_spec : ∀ (lines : List String) (k i : Nat) (e : ElementSet),
    (scanTLE lines k).get? i = some e →
    e.name = "SAT " ++ toString (k + i + 1) ∨ e.name ∈ lines
  | [], _, i, e => by intro h; simp [scanTLE] at h
  | [_], _, i, e => by intro h; simp [scanTLE] at h
  | [l0, l1], k, i, e => by
    intro h
    cases hc : (startsWith l0 "1 " && startsWith l1 "2 ") with
    | false => simp [scanTLE, hc] at h
    | true =>
      simp only [scanTLE, hc, if_true] at h
      cases i with
      | zero =>
        rw [List.get?_cons_zero, Option.some_inj] at h
        subst h
        exact Or.inl rfl
      | succ j => simp at h
  | l0 :: l1 :: l2 :: rest, k, i, e => by
    intro h
    cases hc1 : (startsWith l0 "1 " && startsWith l1 "2 ") with
    | true =>
      simp only [scanTLE, hc1, if_true] at h
      cases i with
      | zero =>
        rw [List.get?_cons_zero, Option.some_inj] at h
        subst h
        exact Or.inl rfl
      | succ j =>
        rw [List.get?_cons_succ] at h
        rcases scanTLE_name_spec (l2 :: rest) (k + 1) j e h with hn | hn
        · left
          rw [hn]
          have : k + 1 + j + 1 = k + (j + 1) + 1 := by omega
          rw [this]
        · right
          exact List.mem_cons_of_mem _ (List.mem_cons_of_mem _ hn)
    | false =>
      cases hc2 : (!startsWith l0 "1 " && startsWith l1 "1 " && startsWith l2 "2 ") with
      | true =>
        simp only [scanTLE, hc1, hc2, if_true, Bool.false_eq_true, if_false] at h
        cases i with
        | zero =>
          rw [List.get?_cons_zero, Option.some_inj] at h
          subst h
          exact Or.inr (List.mem_cons_self _ _)
        | succ j =>
          rw [List.get?_cons_succ] at h
          rcases scanTLE_name_spec rest (k + 1) j e h with hn | hn
          · left
            rw [hn]
            have : k + 1 + j + 1 = k + (j + 1) + 1 := by omega
            rw [this]
          · right
            exact List.mem_cons_of_mem _ (List.mem_cons_of_mem _
              (List.mem_cons_of_mem _ hn))
      | false =>
        simp only [scanTLE, hc1, hc2, Bool.false_eq_true, if_false] at h
        rcases scanTLE_name_spec (l1 :: l2 :: rest) k i e h with hn | hn
        · exact Or.inl hn
        · exact Or.inr (List.mem_cons_of_mem _ hn)

/-- If no line carries the `"2 "` marker, the scan emits nothing: both
emitting branches require a `"2 "` line. -/
lemma scanTLE_eq_nil_of_no_marker2 : ∀ (lines : List String) (k : Nat),
    (∀ l ∈ lines, startsWith l "2 " = false) →
    scanTLE lines k = []
  | [], _, _ => rfl
  | [_], _, _ => rfl
  | [l0, l1], k, h => by
    have h1 := h l1 (by simp)
    simp [scanTLE, h1]
  | l0 :: l1 :: l2 :: rest, k, h => by
    have h1 := h l1 (by simp)
    have h2 := h l2 (by simp)
    have ih := scanTLE_eq_nil_of_no_marker2 (l1 :: l2 :: rest) k
      (fun l hl => h l (List.mem_cons_of_mem _ hl))
    simp [scanTLE, h1, h2, ih]

/-- Iteration count of the scan loop is at most the number of lines: every
iteration advances the index by at least 1. -/
lemma scanSteps_le_length : ∀ lines : List String, scanSteps lines ≤ lines.length
  | [] => Nat.le_refl 0
  | [_] => Nat.le_refl 1
  | [l0, l1] => by
    simp only [scanSteps]
    split <;> simp
  | l0 :: l1 :: l2 :: rest => by
    have ih1 := scanSteps_le_length (l2 :: rest)
    have ih2 := scanSteps_le_length rest
    have ih3 := scanSteps_le_length (l1 :: l2 :: rest)
    simp only [scanSteps, List.length_cons] at *
    split
    · omega
    · split <;> omega

/-- Each emitted element set consumes at least two input lines. -/
lemma two_mul_scanTLE_length_le : ∀ (lines : List String) (k : Nat),
    2 * (scanTLE lines k).length ≤ lines.length
  | [], _ => Nat.le_refl 0
  | [_], _ => by simp [scanTLE]
  | [l0, l1], k => by
    simp only [scanTLE]
    split <;> simp
  | l0 :: l1 :: l2 :: rest, k => by
    have ih1 := two_mul_scanTLE_length_le (l2 :: rest) (k + 1)
    have ih2 := two_mul_scanTLE_length_le rest (k + 1)
    have ih3 := two_mul_scanTLE_length_le (l1 :: l2 :: rest) k
    simp only [scanTLE, List.length_cons] at *
    split
    · simp only [List.length_cons]
      omega
    · split
      · simp only [List.length_cons]
        omega
      · omega

/-! ## Parser claim theorems -/

/-- C1: if the normalized line list of an input is exactly one well-formed
2-line group (a `"1 "` line followed by a `"2 "` line, no preceding name
line), `parseTLEText` returns exactly one element set named `"SAT 1"` with
`line1`/`line2` the two lines; and, in general, an emitted element set at
0-based index `i` that carries an auto-generated name is named
`"SAT "` followed by `i + 1`, the 1-based count of element sets emitted so
far including itself (otherwise its name is one of the input lines, the
3-line branch). -/
theorem parse_two_line_auto_name (text l0 l1 : String)
    (hn : normalizeLines text = [l0, l1])
    (h1 : startsWith l0 "1 " = true) (h2 : startsWith l1 "2 " = true)
    (t : String) (i : Nat) (e : ElementSet)
    (he : (parseTLEText t).get? i = some e) :
    parseTLEText text = [⟨"SAT 1", l0, l1⟩] ∧
    (e.name = "SAT " ++ toString (i + 1) ∨ e.name ∈ normalizeLines t) := by
  constructor
  · unfold parseTLEText
    rw [hn]
    have hstep : scanTLE [l0, l1] 0 = [⟨"SAT " ++ toString (0 + 1), l0, l1⟩] := by
      simp [scanTLE, h1, h2]
    rw [hstep]
    have hname : ("SAT " ++ toString (0 + 1)) = "SAT 1" := by decide
    rw [hname]
  · have := scanTLE_name_spec (normalizeLines t) 0 i e he
    simpa using this

/-- Witness for C1 at the concrete input `"1 a\n2 b"`. -/
theorem parse_two_line_auto_name_witness :
    parseTLEText "1 a\n2 b" = [⟨"SAT 1", "1 a", "2 b"⟩] ∧
    ((⟨"SAT 1", "1 a", "2 b"⟩ : ElementSet).name = "SAT " ++ toString (0 + 1) ∨
      (⟨"SAT 1", "1 a", "2 b"⟩ : ElementSet).name ∈ normalizeLines "1 a\n2 b") :=
  parse_two_line_auto_name "1 a\n2 b" "1 a" "2 b" (by decide) (by decide) (by decide)
    "1 a\n2 b" 0 ⟨"SAT 1", "1 a", "2 b"⟩ (by decide)

/-- C2: a well-formed 3-line group (a non-`"1 "` line, then a `"1 "` line,
then a `"2 "` line) is emitted as one element set whose name is the first
line and whose `line1`/`line2` are the following two, the scan continuing
3 lines further on (first conjunct); an input normalizing to exactly such
a group parses to that single element set (second conjunct). -/
theorem parse_three_line_named (n l1 l2 : String) (rest : List String)
    (k : Nat) (text : String)
    (h0 : startsWith n "1 " = false) (h1 : startsWith l1 "1 " = true)
    (h2 : startsWith l2 "2 " = true)
    (hn : normalizeLines text = [n, l1, l2]) :
    scanTLE (n :: l1 :: l2 :: rest) k = ⟨n, l1, l2⟩ :: scanTLE rest (k + 1) ∧
    parseTLEText text = [⟨n, l1, l2⟩] := by
  have key : ∀ (rest' : List String) (k' : Nat),
      scanTLE (n :: l1 :: l2 :: rest') k' = ⟨n, l1, l2⟩ :: scanTLE rest' (k' + 1) := by
    intro rest' k'
    simp [scanTLE, h0, h1, h2]
  refine ⟨key rest k, ?_⟩
  unfold parseTLEText
  rw [hn, key [] 0]
  rfl

/-- Witness for C2 at the concrete input `"ISS\n1 a\n2 b"`. -/
theorem parse_three_line_named_witness :
    scanTLE ("ISS" :: "1 a" :: "2 b" :: []) 0 =
      ⟨"ISS", "1 a", "2 b"⟩ :: scanTLE [] (0 + 1) ∧
    parseTLEText "ISS\n1 a\n2 b" = [⟨"ISS", "1 a", "2 b"⟩] :=
  parse_three_line_named "ISS" "1 a" "2 b" [] 0 "ISS\n1 a\n2 b"
    (by decide) (by decide) (by decide) (by decide)

/-- C6: the scan is total and treats missing lookahead lines as
non-matches.  With a single remaining line (so `lines[i+1]` is past the
end) nothing is emitted; with two remaining lines whose 2-line pattern
fails (so the 3-line pattern would need the missing `lines[i+2]`) nothing
is emitted; and an input none of whose normalized lines carries the
`"2 "` marker — so no 2- or 3-line group can ever match — parses to the
empty list rather than failing. -/
theorem parse_lookahead_safe (l j0 j1 : String) (k : Nat) (text : String)
    (hb : (startsWith j0 "1 " && startsWith j1 "2 ") = false)
    (hno : ∀ l' ∈ normalizeLines text, startsWith l' "2 " = false) :
    scanTLE [l] k = [] ∧ scanTLE [j0, j1] k = [] ∧ parseTLEText text = [] := by
  refine ⟨rfl, ?_, ?_⟩
  · simp [scanTLE, hb]
  · exact scanTLE_eq_nil_of_no_marker2 (normalizeLines text) 0 hno

/-- Witness for C6: a lone line, a truncated trailing pair, and an
all-junk input. -/
theorem parse_lookahead_safe_witness :
    scanTLE ["1 x"] 0 = [] ∧ scanTLE ["1 a", "1 b"] 0 = [] ∧
    parseTLEText "1 a\njunk\n1 b" = [] :=
  parse_lookahead_safe "1 x" "1 a" "1 b" 0 "1 a\njunk\n1 b" (by decide) (by decide)

/-- C7: every element set emitted by `parseTLEText` has a non-empty
`line1` starting with `"1 "`, a non-empty `line2` starting with `"2 "`,
and a non-empty name (the name is either a non-blank input line or a
synthesized `"SAT <k>"`). -/
theorem parse_emitted_invariant (text : String) (e : ElementSet)
    (he : e ∈ parseTLEText text) :
    e.tle1 ≠ "" ∧ startsWith e.tle1 "1 " = true ∧
    e.tle2 ≠ "" ∧ startsWith e.tle2 "2 " = true ∧ e.name ≠ "" := by
  obtain ⟨h1, h2, hn⟩ :=
    scanTLE_invariant (normalizeLines text) 0 (normalizeLines_ne_empty text) e he
  exact ⟨ne_empty_of_marker1 h1, h1, ne_empty_of_marker2 h2, h2, hn⟩

/-- Witness for C7 at the concrete input `"ISS\n1 a\n2 b"`. -/
theorem parse_emitted_invariant_witness :
    ("1 a" : String) ≠ "" ∧ startsWith "1 a" "1 " = true ∧
    ("2 b" : String) ≠ "" ∧ startsWith "2 b" "2 " = true ∧ ("ISS" : String) ≠ "" :=
  parse_emitted_invariant "ISS\n1 a\n2 b" ⟨"ISS", "1 a", "2 b"⟩ (by decide)

/-- C10: the scan loop of `parseTLEText` terminates on every finite input:
its embedding `scanTLE` is a total structurally-recursive function, each
iteration advances the index by 2, 3 or 1, so the loop performs at most as
many iterations as there are normalized lines (first conjunct; `scanSteps`
counts the iterations), and every emission consumes at least two lines
(second conjunct). -/
theorem parse_terminates_bounded (lines : List String) (k : Nat) :
    scanSteps lines ≤ lines.length ∧ 2 * (scanTLE lines k).length ≤ lines.length :=
  ⟨scanSteps_le_length lines, two_mul_scanTLE_length_le lines k⟩

/-! ## Sampler lemmas -/

/-- Offsets taken by the sampling loop stay within the window: for a
positive step, `n * step ≤ spanSec` for every produced offset. -/
lemma sampleOffsets_le {spanSec step t : ℕ} (hstep : 0 < step)
    (ht : t ∈ sampleOffsets spanSec step) : t ≤ spanSec := by
  obtain ⟨n, hn, rfl⟩ := List.mem_map.mp ht
  rw [List.mem_range] at hn
  have hle : n ≤ spanSec / step := by omega
  exact (Nat.le_div_iff_mul_le hstep).mp hle

/-- Offsets taken by the sampling loop are strictly increasing. -/
lemma sampleOffsets_pairwise (spanSec step : ℕ) (hstep : 0 < step) :
    (sampleOffsets spanSec step).Pairwise (· < ·) := by
  unfold sampleOffsets
  rw [List.pairwise_map]
  exact (List.pairwise_lt_range _).imp fun h => by
    exact Nat.mul_lt_mul_of_lt_of_le h (Nat.le_refl step) hstep

/-- Counting lemma for a skip-on-failure loop: the number of retained
elements is the number of loop instants where the oracle succeeds. -/
lemma length_filterMap_option_map {α β γ : Type} (g : α → Option β)
    (h : α → β → γ) (l : List α) :
    (l.filterMap fun a => (g a).map (h a)).length =
      (l.filter fun a => (g a).isSome).length := by
  induction l with
  | nil => rfl
  | cons a l ih =>
    cases hga : g a with
    | none => simp [List.filterMap_cons, List.filter_cons, hga, ih]
    | some b => simp [List.filterMap_cons, List.filter_cons, hga, ih]

/-- The sample times of a trajectory are the window instants at which the
propagation oracle succeeds, in loop order. -/
lemma buildTrajectory_times (prop : ℚ → Option Geodetic) (start : ℚ)
    (spanSec step : ℕ) :
    (buildTrajectory prop start spanSec step).map PositionSample.time =
      ((sampleOffsets spanSec step).filter
        fun t : ℕ => (prop (start + (t : ℚ))).isSome).map
        fun t : ℕ => start + (t : ℚ) := by
  unfold buildTrajectory
  induction sampleOffsets spanSec step with
  | nil => rfl
  | cons a l ih =>
    cases hp : prop (start + (a : ℚ)) with
    | none => simp [List.filterMap_cons, List.filter_cons, hp, ih]
    | some g => simp [List.filterMap_cons, List.filter_cons, hp, ih]

/-! ## Sampler claim theorems -/

/-- C4: for every propagation oracle and every window (positive step), the
sample times of the produced trajectory are strictly increasing, and every
sample time lies within the closed window
`[start, start + spanSec]` (`window.start` to `window.stop`). -/
theorem trajectory_times_mono_in_window (prop : ℚ → Option Geodetic)
    (start : ℚ) (spanSec step : ℕ) (hstep : 0 < step) :
    ((buildTrajectory prop start spanSec step).map PositionSample.time).Pairwise
      (· < ·) ∧
    ∀ s ∈ buildTrajectory prop start spanSec step,
      start ≤ s.time ∧ s.time ≤ start + (spanSec : ℚ) := by
  constructor
  · rw [buildTrajectory_times, List.pairwise_map]
    have hp : ((sampleOffsets spanSec step).filter
        fun t : ℕ => (prop (start + (t : ℚ))).isSome).Pairwise (· < ·) :=
      List.Pairwise.sublist (List.filter_sublist _)
        (sampleOffsets_pairwise spanSec step hstep)
    refine hp.imp ?_
    intro a b h
    have hq : (a : ℚ) < (b : ℚ) := by exact_mod_cast h
    exact add_lt_add_left hq start
  · intro s hs
    obtain ⟨t, ht, hmap⟩ := List.mem_filterMap.mp hs
    obtain ⟨g, hg, rfl⟩ := Option.map_eq_some'.mp hmap
    refine ⟨le_add_of_nonneg_right (Nat.cast_nonneg t), ?_⟩
    have hle : (t : ℚ) ≤ (spanSec : ℚ) := by
      exact_mod_cast sampleOffsets_le hstep ht
    exact add_le_add_left hle start

/-- Witness for C4: the strict monotonicity conjunct at a concrete oracle
and window. -/
theorem trajectory_times_mono_in_window_witness :
    ((buildTrajectory (fun _ => none) 0 20 10).map PositionSample.time).Pairwise
      (· < ·) :=
  (trajectory_times_mono_in_window (fun _ => none) 0 20 10 (by decide)).1

/-- C3: over a 2-hour window (7200 s) sampled every 10 s, against an
oracle that succeeds exactly for offsets `t ≤ 5400` and fails beyond, the
trajectory holds exactly one sample for each `t ∈ {0, 10, ..., 5400}` —
541 samples at times `start + 10·n` for `n < 541` — and none beyond. -/
theorem trajectory_decayed_window (prop : ℚ → Option Geodetic) (start : ℚ)
    (hsucc : ∀ t : ℕ, t ≤ 5400 → (prop (start + t)).isSome = true)
    (hfail : ∀ t : ℕ, 5400 < t → prop (start + t) = none) :
    (buildTrajectory prop start 7200 10).length = 541 ∧
    (buildTrajectory prop start 7200 10).map PositionSample.time =
      (List.range 541).map fun n => start + ((n * 10 : ℕ) : ℚ) := by
  have hoff : sampleOffsets 7200 10 = (List.range 721).map fun n => n * 10 := rfl
  have htimes := buildTrajectory_times prop start 7200 10
  have hfilter : (sampleOffsets 7200 10).filter
      (fun t : ℕ => (prop (start + (t : ℚ))).isSome) =
      (List.range 541).map fun n => n * 10 := by
    rw [hoff, List.filter_map]
    have hsplit : List.range 721 =
        List.range 541 ++ (List.range 180).map fun x => 541 + x := by
      have h721 : (721 : ℕ) = 541 + 180 := by norm_num
      rw [h721, List.range_add]
    rw [hsplit, List.filter_append]
    have h1 : (List.range 541).filter
        ((fun t : ℕ => (prop (start + (t : ℚ))).isSome) ∘ fun n => n * 10) =
        List.range 541 := by
      rw [List.filter_eq_self]
      intro n hn
      rw [List.mem_range] at hn
      simp only [Function.comp_apply]
      exact hsucc (n * 10) (by omega)
    have h2 : (((List.range 180).map fun x => 541 + x).filter
        ((fun t : ℕ => (prop (start + (t : ℚ))).isSome) ∘ fun n => n * 10)) = [] := by
      rw [List.filter_eq_nil_iff]
      intro a ha
      obtain ⟨x, -, rfl⟩ := List.mem_map.mp ha
      simp only [Function.comp_apply]
      rw [hfail ((541 + x) * 10) (by omega)]
      decide
    rw [h1, h2, List.append_nil]
  constructor
  · have hlen := congrArg List.length htimes
    simp only [List.length_map] at hlen
    rw [hfilter] at hlen
    simp only [List.length_map, List.length_range] at hlen
    exact hlen
  · rw [htimes, hfilter, List.map_map]
    rfl

/-- Oracle for the C3 witness: succeeds up to 5400 seconds into the
window, fails afterwards (a mid-window decay). -/
def decayOracle : ℚ → Option Geodetic := fun q =>
  if q ≤ 5400 then some ⟨0, 0, 400⟩ else none

/-- Witness for C3 with a concrete decaying oracle at `start = 0`. -/
theorem trajectory_decayed_window_witness :
    (buildTrajectory decayOracle 0 7200 10).length = 541 ∧
    (buildTrajectory decayOracle 0 7200 10).map PositionSample.time =
      (List.range 541).map fun n => (0 : ℚ) + ((n * 10 : ℕ) : ℚ) :=
  trajectory_decayed_window decayOracle 0
    (fun t ht => by
      unfold decayOracle
      rw [if_pos]
      · rfl
      · rw [zero_add]
        exact_mod_cast ht)
    (fun t ht => by
      unfold decayOracle
      rw [if_neg]
      rw [zero_add]
      exact not_le.mpr (by exact_mod_cast ht))

/-- C5: at a sampled offset where the oracle reports no solution, no
sample with that instant is emitted, while a successful offset always
contributes its sample (failures do not abort the loop); and if the oracle
fails at every sampled offset the trajectory is empty (and no error is
raised: the embedding is a total function). -/
theorem trajectory_skip_on_failure (prop : ℚ → Option Geodetic) (start : ℚ)
    (spanSec step : ℕ) (t : ℕ) (ht : t ∈ sampleOffsets spanSec step) :
    (prop (start + (t : ℚ)) = none →
      ∀ s ∈ buildTrajectory prop start spanSec step, s.time ≠ start + (t : ℚ)) ∧
    ((prop (start + (t : ℚ))).isSome = true →
      ∃ s ∈ buildTrajectory prop start spanSec step, s.time = start + (t : ℚ)) ∧
    ((∀ u ∈ sampleOffsets spanSec step, prop (start + (u : ℚ)) = none) →
      buildTrajectory prop start spanSec step = []) := by
  refine ⟨?_, ?_, ?_⟩
  · intro hnone s hs htime
    obtain ⟨u, hu, hmap⟩ := List.mem_filterMap.mp hs
    obtain ⟨g, hg, rfl⟩ := Option.map_eq_some'.mp hmap
    have hcast : (u : ℚ) = (t : ℚ) :=
      add_left_cancel (show start + (u : ℚ) = start + (t : ℚ) from htime)
    have hut : u = t := by exact_mod_cast hcast
    rw [hut, hnone] at hg
    cases hg
  · intro hsome
    obtain ⟨g, hg⟩ := Option.isSome_iff_exists.mp hsome
    refine ⟨⟨start + (t : ℚ), g.lonDeg, g.latDeg, g.heightKm * 1000⟩, ?_, rfl⟩
    exact List.mem_filterMap.mpr ⟨t, ht, by rw [hg]; rfl⟩
  · intro hall
    unfold buildTrajectory
    rw [List.filterMap_eq_nil_iff]
    intro u hu
    rw [hall u hu]
    rfl

/-- Witness for C5: an oracle failing everywhere yields the empty
trajectory. -/
theorem trajectory_skip_on_failure_witness :
    buildTrajectory (fun _ => none) 0 10 10 = [] :=
  (trajectory_skip_on_failure (fun _ => none) 0 10 10 0 (by decide)).2.2
    fun _ _ => rfl

/-! ## Ground-track claim theorem -/

/-- C8: the ground track is a coarser (30-second stride versus 10) pass
over the already-computed trajectory.  The reverse query `getValue` is the
external render collaborator; per its input contract it can resolve a time
only if the trajectory retains a sample at that time (hypothesis `hres`).
Then the ground track has at most as many points as the trajectory has
samples, and at most the coarser stride's sample count
`spanSec / 30 + 1` — one third the stride rate of the trajectory's
`spanSec / 10 + 1` slots. -/
theorem groundTrack_count_le (getValue : ℚ → Option (ℚ × ℚ))
    (prop : ℚ → Option Geodetic) (start : ℚ) (spanSec : ℕ)
    (hres : ∀ x : ℚ, (getValue x).isSome = true →
      ∃ s ∈ buildTrajectory prop start spanSec 10, s.time = x) :
    (buildGroundTrack getValue start spanSec).length ≤
      (buildTrajectory prop start spanSec 10).length ∧
    (buildGroundTrack getValue start spanSec).length ≤ spanSec / 30 + 1 := by
  have hgt : (buildGroundTrack getValue start spanSec).length =
      ((sampleOffsets spanSec 30).filter
        fun t : ℕ => (getValue (start + (t : ℚ))).isSome).length :=
    length_filterMap_option_map _ _ _
  constructor
  · have hmono : ((sampleOffsets spanSec 30).filter
        fun t : ℕ => (getValue (start + (t : ℚ))).isSome).Pairwise (· < ·) :=
      List.Pairwise.sublist (List.filter_sublist _)
        (sampleOffsets_pairwise spanSec 30 (by norm_num))
    have hnodup : (((sampleOffsets spanSec 30).filter
        fun t : ℕ => (getValue (start + (t : ℚ))).isSome).map
        fun t : ℕ => start + (t : ℚ)).Nodup := by
      refine List.Nodup.map ?_ (List.Pairwise.nodup hmono)
      intro a b hab
      have hcast : (a : ℚ) = (b : ℚ) := add_left_cancel hab
      exact_mod_cast hcast
    have hsub : (((sampleOffsets spanSec 30).filter
        fun t : ℕ => (getValue (start + (t : ℚ))).isSome).map
        fun t : ℕ => start + (t : ℚ)) ⊆
        (buildTrajectory prop start spanSec 10).map PositionSample.time := by
      intro x hx
      obtain ⟨t, htS, rfl⟩ := List.mem_map.mp hx
      have hsome : (getValue (start + (t : ℚ))).isSome = true :=
        (List.mem_filter.mp htS).2
      obtain ⟨s, hs, hst⟩ := hres _ hsome
      exact List.mem_map.mpr ⟨s, hs, hst⟩
    have hlen := (hnodup.subperm hsub).length_le
    rw [List.length_map, List.length_map] at hlen
    omega
  · rw [hgt]
    calc ((sampleOffsets spanSec 30).filter
          fun t : ℕ => (getValue (start + (t : ℚ))).isSome).length
        ≤ (sampleOffsets spanSec 30).length := List.length_filter_le _ _
      _ = spanSec / 30 + 1 := by
          unfold sampleOffsets
          rw [List.length_map, List.length_range]

/-- Witness for C8 with an everywhere-failing reverse query. -/
theorem groundTrack_count_le_witness :
    (buildGroundTrack (fun _ => none) 0 60).length ≤
      (buildTrajectory (fun _ => none) 0 60 10).length ∧
    (buildGroundTrack (fun _ => none) 0 60).length ≤ 60 / 30 + 1 :=
  groundTrack_count_le (fun _ => none) (fun _ => none) 0 60
    (fun x hx => by simp at hx)

/-! ## Render (init) claim theorems -/

set_option maxRecDepth 4000 in
/-- Counterexample to C9 as stated: with one parsed element set whose
propagation fails at every sampled instant — so its sampled trajectory is
empty — `init` still renders no fallback notice; the notice appears only
on an empty element-set list. -/
theorem initRender_no_notice_on_empty_trajectory :
    buildTrajectory (fun _ => none) 0 7200 10 = [] ∧
    (initRender (fun _ _ => none) 0 7200 [⟨"SAT 1", "1 x", "2 y"⟩]).all
      (fun a => !a.isNotice) = true := by
  constructor
  · decide
  · decide

/-- C9 (amended): `init` displays the fallback notice exactly when the
parsed element-set list is empty; when the list is non-empty, no fallback
notice is rendered — even for a satellite whose sampled trajectory is
empty (emptiness of an individual trajectory is never tested). -/
theorem initRender_notice_iff_empty_list (prop : ElementSet → ℚ → Option Geodetic)
    (start : ℚ) (spanSec : ℕ) (tles : List ElementSet) :
    (tles.length = 0 → initRender prop start spanSec tles =
      [RenderAction.fallbackNotice "No valid TLEs found in /TLE.txt"]) ∧
    (tles.length ≠ 0 →
      ∀ a ∈ initRender prop start spanSec tles, a.isNotice = false) := by
  constructor
  · intro h
    unfold initRender
    rw [if_pos h]
  · intro h a ha
    unfold initRender at ha
    rw [if_neg h] at ha
    rcases List.mem_append.mp ha with h' | h' <;>
      · obtain ⟨u, -, rfl⟩ := List.mem_map.mp h'
        rfl

/-- Witness for the amended C9 at an empty and a one-element list. -/
theorem initRender_notice_iff_empty_list_witness :
    initRender (fun _ _ => none) 0 7200 [] =
      [RenderAction.fallbackNotice "No valid TLEs found in /TLE.txt"] :=
  (initRender_notice_iff_empty_list (fun _ _ => none) 0 7200 []).1 rfl

end OrbitVis
